import Mathlib

/-!
Verification of the CAN log decoding engine (Rust sources) against its
natural-language specification.  The definitions below are shallow embeddings
of the corresponding Rust functions; machine integers are modelled as `Nat`
or `Int` with explicit `% 2 ^ w` where overflow matters, `f64` scale factors
as `ℚ` (the decoder only compares them for equality and multiplies them with
integers), fallible code as `Option` or `Except`.
-/

deriving instance DecidableEq for Except

namespace CanLog

/-! ## Machine-integer helpers -/

/-- Interpretation of a `u64` bit pattern as an `i64` (Rust `as i64`). -/
def u64AsI64 (v : Nat) : Int :=
  if v < 2 ^ 63 then (v : Int) else (v : Int) - 2 ^ 64

/-- Interpretation of an `i64` value as a `u64` bit pattern (Rust `as u64`). -/
def i64AsU64 (v : Int) : Nat :=
  (v % 2 ^ 64).toNat

/-! ## Data model (types.rs, signals/database.rs)

Timestamps are carried as the raw nanosecond counter (`CanFrame::timestamp_ns`);
the Rust code converts it to a calendar datetime when building events, a
conversion that carries no information relevant to the claims. -/

/-- Byte order of a signal (database.rs `ByteOrder`). -/
inductive ByteOrder where
  | LittleEndian
  | BigEndian
  deriving DecidableEq

/-- Value type of a signal (database.rs `ValueType`). -/
inductive ValueType where
  | Signed
  | Unsigned
  deriving DecidableEq

/-- Multiplexer gate of a signal (database.rs `MultiplexerInfo`).
Activating selector values are `u64`, modelled as `Nat`. -/
structure MultiplexerInfo where
  multiplexer_signal : String
  multiplexer_values : List Nat
  deriving DecidableEq

/-- Signal definition (database.rs `SignalDefinition`).  The `f64` fields are
modelled as `ℚ`; the `HashMap<i64, String>` value table as an association
list with the same lookup semantics. -/
structure SignalDefinition where
  name : String
  start_bit : Nat
  length : Nat
  byte_order : ByteOrder
  value_type : ValueType
  factor : ℚ
  offset : ℚ
  min : ℚ
  max : ℚ
  unit : Option String
  value_table : Option (List (Int × String))
  multiplexer_info : Option MultiplexerInfo
  deriving DecidableEq

/-- Message definition (database.rs `MessageDefinition`). -/
structure MessageDefinition where
  id : Nat
  name : String
  size : Nat
  sender : Option String
  signals : List SignalDefinition
  is_multiplexed : Bool
  multiplexer_signal : Option String
  source : String
  deriving DecidableEq

/-- Container type (types.rs `ContainerType`). -/
inductive ContainerType where
  | Static
  | Dynamic
  | Queued
  deriving DecidableEq

/-- Information about a PDU contained in a container (database.rs
`ContainedPduInfo`). -/
structure ContainedPduInfo where
  pdu_id : Nat
  name : String
  position : Nat
  size : Nat
  deriving DecidableEq

/-- Container layout (database.rs `ContainerLayout`). -/
inductive ContainerLayout where
  | Static (pdus : List ContainedPduInfo)
  | Dynamic (header_size : Nat) (pdus : List ContainedPduInfo)
  | Queued (pdu_id : Nat) (pdu_size : Nat)
  deriving DecidableEq

/-- Container definition (database.rs `ContainerDefinition`). -/
structure ContainerDefinition where
  id : Nat
  name : String
  container_type : ContainerType
  layout : ContainerLayout
  source : String
  deriving DecidableEq

/-- Raw CAN frame (types.rs `CanFrame`). -/
structure CanFrame where
  timestamp_ns : Nat
  channel : Nat
  can_id : Nat
  data : List Nat
  is_extended : Bool
  is_fd : Bool
  is_error_frame : Bool
  is_remote_frame : Bool
  deriving DecidableEq

/-- Raw contained PDU (types.rs `ContainedPdu`). -/
structure ContainedPdu where
  pdu_id : Nat
  name : String
  data : List Nat
  deriving DecidableEq

/-- Decoded signal value (types.rs `SignalValue`); the float variant carries
the exact rational the decoder computes. -/
inductive SignalValue where
  | Integer (v : Int)
  | Float (v : ℚ)
  | Boolean (v : Bool)
  deriving DecidableEq

/-- Decoded signal (types.rs `DecodedSignal`). -/
structure DecodedSignal where
  name : String
  value : SignalValue
  unit : Option String
  value_description : Option String
  raw_value : Int
  deriving DecidableEq

/-- Decoded event (types.rs `DecodedEvent`).  The `CanTpMessage` variant
belongs to the out-of-core CAN-TP layer and is not produced by any embedded
function; it is kept for completeness of the sum type. -/
inductive DecodedEvent where
  | Message (timestamp : Nat) (channel : Nat) (can_id : Nat)
      (message_name : Option String) (sender : Option String)
      (signals : List DecodedSignal) (is_multiplexed : Bool)
      (multiplexer_value : Option Nat)
  | CanTpMessage (timestamp : Nat) (channel : Nat) (source_addr : Nat)
      (target_addr : Nat) (payload : List Nat) (payload_length : Nat)
  | ContainerPdu (timestamp : Nat) (container_id : Nat)
      (container_name : String) (container_type : ContainerType)
      (contained_pdus : List ContainedPdu)
  | RawFrame (timestamp : Nat) (channel : Nat) (can_id : Nat)
      (data : List Nat) (is_fd : Bool)
  deriving DecidableEq

/-- Decoder errors (types.rs `DecoderError`); the payloads irrelevant to the
claims are kept as strings. -/
inductive DecoderError where
  | LogParseError (msg : String)
  | DbcParseError (msg : String)
  | ArxmlParseError (msg : String)
  | SignalNotFound (msg : String)
  | MessageNotFound (id : Nat)
  | InvalidSignalDefinition (msg : String)
  | InvalidData (msg : String)
  | Unknown (msg : String)
  deriving DecidableEq

/-! ## Bit-level signal extraction (message_decoder.rs) -/

/-- Port of `MessageDecoder::extract_little_endian` (message_decoder.rs:157).
For each output bit `i`, read bit `(start_bit+i) % 8` of byte
`(start_bit+i) / 8` and place it at output bit `i`. -/
def extract_little_endian (data : List Nat) (start_bit length : Nat) : Nat :=
  (List.range length).foldl
    (fun result i =>
      let bit_pos := start_bit + i
      let byte_idx := bit_pos / 8
      let bit_in_byte := bit_pos % 8
      if byte_idx < data.length then
        result ||| ((((data.getD byte_idx 0) >>> bit_in_byte) &&& 1) <<< i)
      else result)
    0

/-- Port of `MessageDecoder::extract_big_endian` (message_decoder.rs:180).
For each output bit `i`, read bit `7 - ((start_bit+i) % 8)` of byte
`(start_bit+i) / 8` and place it at output position `length - 1 - i`. -/
def extract_big_endian (data : List Nat) (start_bit length : Nat) : Nat :=
  (List.range length).foldl
    (fun result i =>
      let bit_pos := start_bit + i
      let byte_idx := bit_pos / 8
      let bit_in_byte := 7 - (bit_pos % 8)
      if byte_idx < data.length then
        result ||| ((((data.getD byte_idx 0) >>> bit_in_byte) &&& 1) <<< (length - 1 - i))
      else result)
    0

/-- Port of `MessageDecoder::sign_extend` (message_decoder.rs:202).
`value` is a `u64` bit pattern; the result is the `i64` the Rust function
returns.  The `% 2 ^ 64` keeps the `u64` shift results in range. -/
def sign_extend (value : Nat) (bit_length : Nat) : Int :=
  if bit_length ≥ 64 then u64AsI64 value
  else
    let sign_bit := (1 <<< (bit_length - 1)) % 2 ^ 64
    if value &&& sign_bit ≠ 0 then
      let mask := ((2 ^ 64 - 1) <<< bit_length) % 2 ^ 64
      u64AsI64 (value ||| mask)
    else
      u64AsI64 value

/-- Port of `MessageDecoder::extract_signal_value` (message_decoder.rs:120):
bounds check, byte-order dispatch, sign handling. -/
def extract_signal_value (data : List Nat) (s : SignalDefinition) : Option Int :=
  let start_bit := s.start_bit
  let length := s.length
  let required_bytes := (start_bit + length + 7) / 8
  if required_bytes > data.length then none
  else
    let raw_value :=
      match s.byte_order with
      | ByteOrder.LittleEndian => extract_little_endian data start_bit length
      | ByteOrder.BigEndian => extract_big_endian data start_bit length
    let signed_value :=
      match s.value_type with
      | ValueType.Unsigned => u64AsI64 raw_value
      | ValueType.Signed => sign_extend raw_value length
    some signed_value

/-- Port of `MessageDecoder::decode_signal` (message_decoder.rs:81):
raw extraction, physical conversion, value-kind selection, value-table
lookup. -/
def decode_signal (data : List Nat) (s : SignalDefinition) : Option DecodedSignal :=
  match extract_signal_value data s with
  | none => none
  | some raw_value =>
    let physical_value : ℚ := s.offset + s.factor * (raw_value : ℚ)
    let value :=
      if s.factor = 1 ∧ s.offset = 0 ∧ s.length = 1 then
        SignalValue.Boolean (raw_value != 0)
      else if s.factor ≠ 1 ∨ s.offset ≠ 0 then
        SignalValue.Float physical_value
      else
        SignalValue.Integer raw_value
    let value_description :=
      s.value_table.bind (fun table => table.lookup raw_value)
    some { name := s.name, value := value, unit := s.unit,
           value_description := value_description, raw_value := raw_value }

/-- Port of `MessageDecoder::decode_message` (message_decoder.rs:24):
multiplexer pre-pass, gated signal pass, empty-result suppression. -/
def decode_message (frame : CanFrame) (md : MessageDefinition) : Option DecodedEvent :=
  let multiplexer_value : Option Nat :=
    if md.is_multiplexed then
      match md.multiplexer_signal with
      | some mux_signal_name =>
        match md.signals.find? (fun s => s.name == mux_signal_name) with
        | some mux_signal =>
          match extract_signal_value frame.data mux_signal with
          | some value => some (i64AsU64 value)
          | none => none
        | none => none
      | none => none
    else none
  let decoded_signals := md.signals.filterMap (fun s =>
    match s.multiplexer_info with
    | some mux_info =>
      match multiplexer_value with
      | some current_mux_value =>
        if mux_info.multiplexer_values.contains current_mux_value then
          decode_signal frame.data s
        else none
      | none => none
    | none => decode_signal frame.data s)
  if decoded_signals.isEmpty then none
  else
    some (DecodedEvent.Message frame.timestamp_ns frame.channel frame.can_id
      (some md.name) md.sender decoded_signals md.is_multiplexed
      multiplexer_value)

/-! ## Signal database (signals/database.rs)

The Rust `HashMap`s are modelled as association lists with unique keys:
`List.lookup` is the map lookup, `alistInsert` the overwriting insert and
`alistModify` the `entry(..).or_insert_with(..)` update.  Hash-iteration
order is never observed by the embedded functions. -/

/-- Overwriting insert into an association list (HashMap `insert`). -/
def alistInsert [BEq α] (l : List (α × β)) (k : α) (v : β) : List (α × β) :=
  match l with
  | [] => [(k, v)]
  | (k', v') :: rest =>
    if k' == k then (k, v) :: rest else (k', v') :: alistInsert rest k v

/-- Update-or-insert into an association list
(HashMap `entry(k).or_insert_with(d)` followed by an update `f`). -/
def alistModify [BEq α] (l : List (α × β)) (k : α) (d : β) (f : β → β) :
    List (α × β) :=
  match l with
  | [] => [(k, f d)]
  | (k', v') :: rest =>
    if k' == k then (k, f v') :: rest else (k', v') :: alistModify rest k d f

/-- Unified signal database (database.rs `SignalDatabase`). -/
structure SignalDatabase where
  messages : List (Nat × List MessageDefinition)
  containers : List (Nat × ContainerDefinition)
  signal_lookup : List (String × List (Nat × Nat))
  message_lookup : List (String × (Nat × Nat))
  deriving DecidableEq

/-- Port of `SignalDatabase::new` (database.rs:152). -/
def SignalDatabase.empty : SignalDatabase := ⟨[], [], [], []⟩

/-- Port of `SignalDatabase::add_message` (database.rs:162): records signal
positions in `signal_lookup`, overwrites the name entry in `message_lookup`
with the index the new message will occupy, and appends the message to the
per-id list. -/
def SignalDatabase.add_message (db : SignalDatabase) (message : MessageDefinition) :
    SignalDatabase :=
  let can_id := message.id
  let signal_lookup := message.signals.enum.foldl
    (fun acc (p : Nat × SignalDefinition) =>
      alistModify acc p.2.name [] (fun v => v ++ [(can_id, p.1)]))
    db.signal_lookup
  let msg_idx := ((List.lookup can_id db.messages).map List.length).getD 0
  let message_lookup := alistInsert db.message_lookup message.name (can_id, msg_idx)
  let messages := alistModify db.messages can_id [] (fun v => v ++ [message])
  { db with messages := messages, signal_lookup := signal_lookup,
            message_lookup := message_lookup }

/-- Port of `SignalDatabase::add_container` (database.rs:190). -/
def SignalDatabase.add_container (db : SignalDatabase) (container : ContainerDefinition) :
    SignalDatabase :=
  { db with containers := alistInsert db.containers container.id container }

/-- Port of `SignalDatabase::get_message` (database.rs:200): first message
recorded for the CAN id. -/
def SignalDatabase.get_message (db : SignalDatabase) (can_id : Nat) :
    Option MessageDefinition :=
  (List.lookup can_id db.messages).bind List.head?

/-- Port of `SignalDatabase::get_container` (database.rs:205). -/
def SignalDatabase.get_container (db : SignalDatabase) (container_id : Nat) :
    Option ContainerDefinition :=
  List.lookup container_id db.containers

/-- Port of `SignalDatabase::get_message_by_name` (database.rs:210): the
name index points at a (CAN id, position) pair inside `messages`. -/
def SignalDatabase.get_message_by_name (db : SignalDatabase) (message_name : String) :
    Option MessageDefinition :=
  (List.lookup message_name db.message_lookup).bind
    (fun p => (List.lookup p.1 db.messages).bind (fun msgs => msgs.get? p.2))

/-! ## Container decoding (container_decoder.rs) -/

/-- Modelled from the spec: `MessageDecoder::decode_pdu_data` is called by
the container decoder (container_decoder.rs:118,259,329) but its definition
is not present in the sources.  Per the spec, a contained PDU's bytes are
decoded against the matched message definition exactly like a message body
("a match yields a decoded-message event whose timestamp mirrors the
container frame's"; the message decoder "emits a decoded-message event only
if at least one signal was successfully extracted").  The channel of a
contained PDU is not carried by a CAN frame; it is modelled as 0. -/
def decode_pdu_data (data : List Nat) (md : MessageDefinition) (timestamp : Nat) :
    Option DecodedEvent :=
  decode_message
    { timestamp_ns := timestamp, channel := 0, can_id := md.id, data := data,
      is_extended := false, is_fd := false, is_error_frame := false,
      is_remote_frame := false } md

/-- Warning cap of `ContainerDecoder::decode_static_container`
(container_decoder.rs:83). -/
def MAX_WARNINGS : Nat := 5

/-- State accumulated by the static-container loop
(container_decoder.rs:85-139): the contained-PDU slices, the decoded
events, the overflow counter `warning_count`, and the number of per-PDU
overflow warnings actually written to the log (`log::warn!` fires while
`warning_count <= MAX_WARNINGS`). -/
structure StaticScan where
  contained : List ContainedPdu
  decoded : List DecodedEvent
  warning_count : Nat
  warnings_logged : Nat
  deriving DecidableEq

/-- Body of the sub-PDU loop of `ContainerDecoder::decode_static_container`
(container_decoder.rs:85-139): an out-of-range slice bumps the warning
counter and is skipped (`continue`); an in-range slice is recorded and, when
the name resolves in the database, decoded. -/
def static_step (db : SignalDatabase) (frame : CanFrame) (st : StaticScan)
    (pdu_info : ContainedPduInfo) : StaticScan :=
  let end_pos := pdu_info.position + pdu_info.size
  if end_pos > frame.data.length then
    let wc := st.warning_count + 1
    { st with
      warning_count := wc,
      warnings_logged :=
        if wc ≤ MAX_WARNINGS then st.warnings_logged + 1
        else st.warnings_logged }
  else
    let pdu_data := (frame.data.drop pdu_info.position).take pdu_info.size
    let contained := st.contained ++
      [{ pdu_id := pdu_info.pdu_id, name := pdu_info.name, data := pdu_data }]
    let decoded :=
      match db.get_message_by_name pdu_info.name with
      | some message_def =>
        match decode_pdu_data pdu_data message_def frame.timestamp_ns with
        | some decoded_message => st.decoded ++ [decoded_message]
        | none => st.decoded
      | none => st.decoded
    { st with contained := contained, decoded := decoded }

/-- Port of the sub-PDU loop of `ContainerDecoder::decode_static_container`
(container_decoder.rs:85), folding `static_step` from the empty state. -/
def static_scan (db : SignalDatabase) (frame : CanFrame)
    (pdus : List ContainedPduInfo) : StaticScan :=
  pdus.foldl (static_step db frame) ⟨[], [], 0, 0⟩

/-- Port of `ContainerDecoder::decode_static_container`
(container_decoder.rs:74): the container event followed by the decoded
events of the contained PDUs. -/
def decode_static_container (frame : CanFrame) (container_def : ContainerDefinition)
    (pdus : List ContainedPduInfo) (db : SignalDatabase) : List DecodedEvent :=
  let st := static_scan db frame pdus
  DecodedEvent.ContainerPdu frame.timestamp_ns container_def.id
      container_def.name container_def.container_type st.contained
    :: st.decoded

/-- Header parse step of `ContainerDecoder::decode_dynamic_container`
(container_decoder.rs:200-225): SHORT-HEADER is a big-endian `u16` id and a
one-byte length, LONG-HEADER a big-endian `u32` id and a big-endian `u32`
length; any other header size is rejected. -/
def parse_dynamic_header (header_size : Nat) (data : List Nat) (offset : Nat) :
    Option (Nat × Nat) :=
  if header_size = 4 then
    some ((data.getD offset 0) * 256 + data.getD (offset + 1) 0,
          data.getD (offset + 2) 0)
  else if header_size = 8 then
    some (((((data.getD offset 0) * 256 + data.getD (offset + 1) 0) * 256 +
            data.getD (offset + 2) 0) * 256 + data.getD (offset + 3) 0),
          ((((data.getD (offset + 4) 0) * 256 + data.getD (offset + 5) 0) * 256 +
            data.getD (offset + 6) 0) * 256 + data.getD (offset + 7) 0))
  else none

theorem parse_dynamic_header_sizes {header_size : Nat} {data : List Nat}
    {offset : Nat} {x : Nat × Nat}
    (h : parse_dynamic_header header_size data offset = some x) :
    header_size = 4 ∨ header_size = 8 := by
  unfold parse_dynamic_header at h
  by_cases h4 : header_size = 4
  · exact Or.inl h4
  · rw [if_neg h4] at h
    by_cases h8 : header_size = 8
    · exact Or.inr h8
    · rw [if_neg h8] at h
      exact absurd h (by simp)

/-- Port of the header/payload loop of
`ContainerDecoder::decode_dynamic_container` (container_decoder.rs:192-271):
stop on short input or an all-zero header; stop (with a warning) when the
declared length exceeds the remaining payload; otherwise slice, resolve the
name from the advisory PDU list (else synthesize `PDU_<id>`), decode, and
advance past header and payload. -/
def decode_dynamic_loop (db : SignalDatabase) (data : List Nat) (timestamp : Nat)
    (header_size : Nat) (pdus : List ContainedPduInfo) (offset : Nat)
    (contained : List ContainedPdu) (decoded : List DecodedEvent) :
    Except DecoderError (List ContainedPdu × List DecodedEvent) :=
  if hle : offset + header_size ≤ data.length then
    let header_bytes := (data.drop offset).take header_size
    if header_bytes.all (fun b => b == 0) then Except.ok (contained, decoded)
    else
      match hparse : parse_dynamic_header header_size data offset with
      | none => Except.error (DecoderError.InvalidData "Unsupported header size")
      | some (pdu_id, pdu_length) =>
        let offset2 := offset + header_size
        if offset2 + pdu_length > data.length then Except.ok (contained, decoded)
        else
          let pdu_data := (data.drop offset2).take pdu_length
          let pdu_name :=
            match pdus.find? (fun p => p.pdu_id == pdu_id) with
            | some p => p.name
            | none => "PDU_" ++ toString pdu_id
          let contained' := contained ++
            [{ pdu_id := pdu_id, name := pdu_name, data := pdu_data }]
          let decoded' :=
            match db.get_message_by_name pdu_name with
            | some message_def =>
              match decode_pdu_data pdu_data message_def timestamp with
              | some ev => decoded ++ [ev]
              | none => decoded
            | none => decoded
          decode_dynamic_loop db data timestamp header_size pdus
            (offset2 + pdu_length) contained' decoded'
  else Except.ok (contained, decoded)
termination_by data.length - offset
decreasing_by
  rcases parse_dynamic_header_sizes hparse with h | h <;> omega

/-- Port of the instance loop of `ContainerDecoder::decode_queued_container`
(container_decoder.rs:309-345): slice `pdu_size` bytes per instance, stop on
an all-zero slice or exhausted payload, and resolve signals by looking the
configured pdu id up as a CAN id. -/
def decode_queued_loop (db : SignalDatabase) (data : List Nat) (timestamp : Nat)
    (pdu_id : Nat) (pdu_size : Nat) (offset : Nat) (inst : Nat)
    (contained : List ContainedPdu) (decoded : List DecodedEvent) :
    List ContainedPdu × List DecodedEvent :=
  if hle : offset + pdu_size ≤ data.length then
    if hz : ((data.drop offset).take pdu_size).all (fun b => b == 0) then
      (contained, decoded)
    else
      let pdu_data := (data.drop offset).take pdu_size
      let pdu_name := "PDU_" ++ toString pdu_id ++ "_" ++ toString inst
      let contained' := contained ++
        [{ pdu_id := pdu_id, name := pdu_name, data := pdu_data }]
      let decoded' :=
        match db.get_message pdu_id with
        | some message_def =>
          match decode_pdu_data pdu_data message_def timestamp with
          | some ev => decoded ++ [ev]
          | none => decoded
        | none => decoded
      decode_queued_loop db data timestamp pdu_id pdu_size (offset + pdu_size)
        (inst + 1) contained' decoded'
  else (contained, decoded)
termination_by data.length - offset
decreasing_by
  have hpos : 0 < pdu_size := by
    by_contra hnp
    have hz0 : pdu_size = 0 := by omega
    simp [hz0] at hz
  omega

/-- Port of `ContainerDecoder::decode_container` (container_decoder.rs:33)
together with the per-layout event assembly (the container event followed by
the decoded-message events). -/
def decode_container (frame : CanFrame) (container_def : ContainerDefinition)
    (db : SignalDatabase) : Except DecoderError (List DecodedEvent) :=
  match container_def.layout with
  | ContainerLayout.Static pdus =>
    Except.ok (decode_static_container frame container_def pdus db)
  | ContainerLayout.Dynamic header_size pdus =>
    if frame.data.length < header_size then
      Except.error (DecoderError.InvalidData
        "Frame too small for dynamic container header")
    else
      (decode_dynamic_loop db frame.data frame.timestamp_ns header_size pdus
          0 [] []).map
        (fun r =>
          DecodedEvent.ContainerPdu frame.timestamp_ns container_def.id
              container_def.name container_def.container_type r.1
            :: r.2)
  | ContainerLayout.Queued pdu_id pdu_size =>
    let r := decode_queued_loop db frame.data frame.timestamp_ns pdu_id
      pdu_size 0 0 [] []
    Except.ok
      (DecodedEvent.ContainerPdu frame.timestamp_ns container_def.id
          container_def.name container_def.container_type r.1
        :: r.2)

/-! ## Decoder façade (decoder.rs `DecodingIterator`) -/

/-- State of the composing iterator (decoder.rs:171): the remaining items of
the raw-frame iterator and the `pending_events` vector. -/
structure DecIterState where
  frames : List (Except DecoderError CanFrame)
  pending_events : List DecodedEvent

/-- Port of `DecodingIterator::process_frame` (decoder.rs:193): container
table first, then message table (with raw-frame fallback when no signal
decodes), else a raw-frame event.  Returns the produced event (if any) and
the updated `pending_events` vector. -/
def process_frame (db : SignalDatabase) (pending : List DecodedEvent)
    (frame : CanFrame) :
    Except DecoderError (Option DecodedEvent) × List DecodedEvent :=
  match db.get_container frame.can_id with
  | some container_def =>
    match decode_container frame container_def db with
    | Except.error e => (Except.error e, pending)
    | Except.ok container_events =>
      (Except.ok container_events.head?, pending ++ container_events.tail)
  | none =>
    match db.get_message frame.can_id with
    | some message_def =>
      match decode_message frame message_def with
      | some decoded_event => (Except.ok (some decoded_event), pending)
      | none =>
        (Except.ok (some (DecodedEvent.RawFrame frame.timestamp_ns
          frame.channel frame.can_id frame.data frame.is_fd)), pending)
    | none =>
      (Except.ok (some (DecodedEvent.RawFrame frame.timestamp_ns
        frame.channel frame.can_id frame.data frame.is_fd)), pending)

/-- Port of `DecodingIterator::next` (decoder.rs:252), recursing on the
remaining raw frames: `pending_events.pop()` removes the LAST element of
the vector; only when the vector is empty is the next raw frame pulled and
processed.  The `Ok(None)` branch (`self.next()` after a frame produced no
event, decoder.rs:263) continues with the next frame. -/
def iter_next_go (db : SignalDatabase) :
    List (Except DecoderError CanFrame) → List DecodedEvent →
    Option (Except DecoderError DecodedEvent) × DecIterState
  | frames, pending =>
    match pending.getLast? with
    | some ev => (some (Except.ok ev), ⟨frames, pending.dropLast⟩)
    | none =>
      match frames with
      | [] => (none, ⟨[], pending⟩)
      | Except.error e :: rest => (some (Except.error e), ⟨rest, pending⟩)
      | Except.ok frame :: rest =>
        match process_frame db pending frame with
        | (Except.ok (some ev), pending') =>
          (some (Except.ok ev), ⟨rest, pending'⟩)
        | (Except.ok none, pending') => iter_next_go db rest pending'
        | (Except.error e, pending') =>
          (some (Except.error e), ⟨rest, pending'⟩)

/-- `DecodingIterator::next` on the iterator state. -/
def iter_next (db : SignalDatabase) (st : DecIterState) :
    Option (Except DecoderError DecodedEvent) × DecIterState :=
  iter_next_go db st.frames st.pending_events

/-- Runs the composing iterator to completion (bounded by `fuel` pulls; the
claims use it at concrete inputs where the bound is ample). -/
def iter_run (db : SignalDatabase) (fuel : Nat) (st : DecIterState) :
    List (Except DecoderError DecodedEvent) :=
  match fuel with
  | 0 => []
  | fuel + 1 =>
    match iter_next db st with
    | (none, _) => []
    | (some r, st') => r :: iter_run db fuel st'

/-! ## DBC conversion (signals/dbc.rs)

The `can_dbc` crate hands the host parser one record per `SG_` line; the
fields the host reads are modelled in `DbcSignal`.  `VAL_` records are
parsed by the crate into a value-description table that `convert_signal`
never consults (dbc.rs:124 sets `value_table = None` with a TODO). -/

/-- Multiplex indicator of a DBC signal (`can_dbc::MultiplexIndicator`). -/
inductive MultiplexIndicator where
  | Multiplexor
  | MultiplexedSignal (switch_value : Nat)
  | MultiplexorAndMultiplexedSignal (switch_value : Nat)
  | Plain
  deriving DecidableEq

/-- Fields of a `can_dbc::Signal` read by `convert_signal` (dbc.rs:107). -/
structure DbcSignal where
  name : String
  start_bit : Nat
  signal_size : Nat
  byte_order : ByteOrder
  value_type : ValueType
  factor : ℚ
  offset : ℚ
  min : ℚ
  max : ℚ
  unit : String
  multiplexer_indicator : MultiplexIndicator
  deriving DecidableEq

/-- Fields of a `can_dbc::Message` read by `convert_message` (dbc.rs:63). -/
structure DbcMessage where
  message_id : Nat
  message_name : String
  message_size : Nat
  transmitter : Option String
  signals : List DbcSignal
  deriving DecidableEq

/-- Port of `convert_signal` (dbc.rs:107): byte order and value type map
one-to-one, `value_table` is hard-coded to `None` (dbc.rs:124), and a
`m<N>`-gated signal without a message multiplexer is an error. -/
def convert_signal (dbc_sig : DbcSignal) (multiplexer_signal_name : Option String) :
    Except DecoderError SignalDefinition :=
  let value_table : Option (List (Int × String)) := none
  let mkSignal := fun (multiplexer_info : Option MultiplexerInfo) =>
    ({ name := dbc_sig.name, start_bit := dbc_sig.start_bit,
       length := dbc_sig.signal_size, byte_order := dbc_sig.byte_order,
       value_type := dbc_sig.value_type, factor := dbc_sig.factor,
       offset := dbc_sig.offset, min := dbc_sig.min, max := dbc_sig.max,
       unit := if dbc_sig.unit = "" then none else some dbc_sig.unit,
       value_table := value_table,
       multiplexer_info := multiplexer_info } : SignalDefinition)
  match dbc_sig.multiplexer_indicator with
  | MultiplexIndicator.MultiplexedSignal switch_value =>
    match multiplexer_signal_name with
    | none => Except.error (DecoderError.InvalidSignalDefinition
        ("Multiplexed signal '" ++ dbc_sig.name ++ "' but no multiplexer found"))
    | some n =>
      Except.ok (mkSignal (some (MultiplexerInfo.mk n [switch_value])))
  | _ => Except.ok (mkSignal none)

/-- First pass of `convert_message` (dbc.rs:72): find the multiplexer signal
(breaking at the first `M`), noting whether any signal is multiplexed. -/
def find_multiplexor : List DbcSignal → Bool → Bool × Option String
  | [], is_multiplexed => (is_multiplexed, none)
  | dbc_sig :: rest, is_multiplexed =>
    match dbc_sig.multiplexer_indicator with
    | MultiplexIndicator.Multiplexor => (true, some dbc_sig.name)
    | MultiplexIndicator.MultiplexedSignal _ => find_multiplexor rest true
    | _ => find_multiplexor rest is_multiplexed

/-- Port of `convert_message` (dbc.rs:63). -/
def convert_message (dbc_msg : DbcMessage) (source : String) :
    Except DecoderError MessageDefinition := do
  let fm := find_multiplexor dbc_msg.signals false
  let is_multiplexed := fm.1
  let multiplexer_signal_name := fm.2
  let signals ← dbc_msg.signals.mapM
    (fun dbc_sig => convert_signal dbc_sig multiplexer_signal_name)
  pure { id := dbc_msg.message_id, name := dbc_msg.message_name,
         size := dbc_msg.message_size, sender := dbc_msg.transmitter,
         signals := signals, is_multiplexed := is_multiplexed,
         multiplexer_signal := multiplexer_signal_name, source := source }

/-! ## ARXML contained-PDU layout (signals/arxml.rs) -/

/-- A resolved `CONTAINED-PDU-TRIGGERING-REF` as seen by the layout loop of
`ArxmlParser::parse_contained_pdus` (arxml.rs:411-442): the referenced
I-PDU's name, its declared `LENGTH` (defaulted to 8), and the 16-bit id
derived from the name by `generate_pdu_id` (arxml.rs:464; the hash is
opaque to the layout and is carried here as data). -/
structure ArxmlContainedEntry where
  pdu_id : Nat
  name : String
  size : Nat
  deriving DecidableEq

/-- Port of the accumulation loop of `ArxmlParser::parse_contained_pdus`
(arxml.rs:405-458): each entry is pushed at the running position BEFORE the
overflow check; when the advanced position exceeds the container length the
loop warns and breaks. -/
def parse_contained_pdus_from (entries : List ArxmlContainedEntry)
    (container_length : Nat) (current_position : Nat) : List ContainedPduInfo :=
  match entries with
  | [] => []
  | e :: rest =>
    let info : ContainedPduInfo :=
      { pdu_id := e.pdu_id, name := e.name, position := current_position,
        size := e.size }
    let next_position := current_position + e.size
    if next_position > container_length then [info]
    else info :: parse_contained_pdus_from rest container_length next_position

/-- Port of `ArxmlParser::parse_contained_pdus` (arxml.rs:398): the loop
starts at byte position 0. -/
def parse_contained_pdus (entries : List ArxmlContainedEntry)
    (container_length : Nat) : List ContainedPduInfo :=
  parse_contained_pdus_from entries container_length 0

/-! ## BLF record stream and cross-container splicing (vendor/ablf/src/lib.rs)

A record (`Object`) is the four-byte magic `LOBJ`, a 16-byte preamble whose
`object_size` counts the preamble, and `object_size - 16` payload bytes; the
CAN record types consume exactly that many bytes (e.g. `CanMessage2`,
lib.rs:262).  `binrw` restores the reader position when a read fails, so a
failed read consumes nothing; reading past the end of the input is the `eof`
outcome and a magic mismatch the `badMagic` outcome. -/

/-- ASCII bytes of the record magic `LOBJ`. -/
def LOBJ : List Nat := [0x4C, 0x4F, 0x42, 0x4A]

/-- A BLF record as carried by the container iterators: the preamble fields
and the raw payload (`object_size` is encoded as `16 + payload.length`). -/
structure BlfRecord where
  header_size : Nat
  header_version : Nat
  object_type : Nat
  payload : List Nat
  deriving DecidableEq

/-- Ranges of the on-wire preamble fields (`u16`/`u32` little-endian). -/
def BlfRecord.WellFormed (r : BlfRecord) : Prop :=
  r.header_size < 2 ^ 16 ∧ r.header_version < 2 ^ 16 ∧
    r.object_type < 2 ^ 32 ∧ 16 + r.payload.length < 2 ^ 32

instance (r : BlfRecord) : Decidable r.WellFormed := by
  unfold BlfRecord.WellFormed
  infer_instance

/-- Little-endian bytes of a `u16`. -/
def le16Bytes (v : Nat) : List Nat := [v % 256, v / 256 % 256]

/-- Little-endian bytes of a `u32`. -/
def le32Bytes (v : Nat) : List Nat :=
  [v % 256, v / 256 % 256, v / 65536 % 256, v / 16777216 % 256]

/-- Value of two little-endian bytes. -/
def readLe16 (b0 b1 : Nat) : Nat := b0 + 256 * b1

/-- Value of four little-endian bytes. -/
def readLe32 (b0 b1 b2 b3 : Nat) : Nat :=
  b0 + 256 * b1 + 65536 * b2 + 16777216 * b3

/-- On-wire encoding of a record: magic, `header_size`, `header_version`,
`object_size = 16 + |payload|`, `object_type`, payload (`Object`,
lib.rs:177). -/
def encodeRecord (r : BlfRecord) : List Nat :=
  LOBJ ++ le16Bytes r.header_size ++ le16Bytes r.header_version ++
    le32Bytes (16 + r.payload.length) ++ le32Bytes r.object_type ++ r.payload

/-- Concatenated encoding of a record sequence. -/
def encodeRecords (rs : List BlfRecord) : List Nat :=
  (rs.map encodeRecord).flatten

/-- Outcome of one `Object::read` call. -/
inductive ReadResult where
  | ok (r : BlfRecord) (rest : List Nat)
  | eof
  | badMagic
  deriving DecidableEq

/-- One `Object::read` (lib.rs:177) over a byte list: fewer than 4 bytes or
a truncated preamble/payload is `eof` (binrw leaves the cursor where the
read began), a wrong magic is `badMagic`, otherwise the record and the bytes
after it. -/
def readObject : List Nat → ReadResult
  | m0 :: m1 :: m2 :: m3 :: rest0 =>
    if [m0, m1, m2, m3] ≠ LOBJ then ReadResult.badMagic
    else
      match rest0 with
      | h0 :: h1 :: v0 :: v1 :: s0 :: s1 :: s2 :: s3 :: t0 :: t1 :: t2 :: t3 :: rest =>
        let object_size := readLe32 s0 s1 s2 s3
        let payload_len := object_size - 16
        if rest.length < payload_len then ReadResult.eof
        else
          ReadResult.ok
            { header_size := readLe16 h0 h1, header_version := readLe16 v0 v1,
              object_type := readLe32 t0 t1 t2 t3, payload := rest.take payload_len }
            (rest.drop payload_len)
      | _ => ReadResult.eof
  | _ => ReadResult.eof

theorem readObject_ok_shorter {data rest : List Nat} {r : BlfRecord}
    (h : readObject data = ReadResult.ok r rest) : rest.length < data.length := by
  match data with
  | [] => exact absurd h (by simp [readObject])
  | [a] => exact absurd h (by simp [readObject])
  | [a, b] => exact absurd h (by simp [readObject])
  | [a, b, c] => exact absurd h (by simp [readObject])
  | m0 :: m1 :: m2 :: m3 :: rest0 =>
    unfold readObject at h
    simp only at h
    by_cases hm : [m0, m1, m2, m3] ≠ LOBJ
    · rw [if_pos hm] at h
      exact absurd h (by simp)
    · rw [if_neg hm] at h
      match rest0 with
      | [] => exact absurd h (by simp)
      | [x0] => exact absurd h (by simp)
      | [x0, x1] => exact absurd h (by simp)
      | [x0, x1, x2] => exact absurd h (by simp)
      | [x0, x1, x2, x3] => exact absurd h (by simp)
      | [x0, x1, x2, x3, x4] => exact absurd h (by simp)
      | [x0, x1, x2, x3, x4, x5] => exact absurd h (by simp)
      | [x0, x1, x2, x3, x4, x5, x6] => exact absurd h (by simp)
      | [x0, x1, x2, x3, x4, x5, x6, x7] => exact absurd h (by simp)
      | [x0, x1, x2, x3, x4, x5, x6, x7, x8] => exact absurd h (by simp)
      | [x0, x1, x2, x3, x4, x5, x6, x7, x8, x9] => exact absurd h (by simp)
      | [x0, x1, x2, x3, x4, x5, x6, x7, x8, x9, x10] => exact absurd h (by simp)
      | h0 :: h1 :: v0 :: v1 :: s0 :: s1 :: s2 :: s3 :: t0 :: t1 :: t2 :: t3 :: rtail =>
        simp only at h
        by_cases hlen : rtail.length < readLe32 s0 s1 s2 s3 - 16
        · rw [if_pos hlen] at h
          exact absurd h (by simp)
        · rw [if_neg hlen] at h
          injection h with hobj hrest
          have hr : rest.length ≤ rtail.length := by
            rw [← hrest]
            simp [List.length_drop]
          simp only [List.length_cons]
          omega

/-- Collection phase of `LogContainerIter` (lib.rs:408): read records until
`eof` (the remaining bytes are the iterator's `remaining_data`, lib.rs:396);
a bad magic skips one byte, bounded by 1000 consecutive failures
(lib.rs:426; on the cap the iterator stops at the current cursor). -/
def logContainerCollect : List Nat → Nat → List BlfRecord × List Nat
  | data, consecutive_bad_magic =>
    match hread : readObject data with
    | ReadResult.ok obj rest =>
      let r := logContainerCollect rest 0
      (obj :: r.1, r.2)
    | ReadResult.eof => ([], data)
    | ReadResult.badMagic =>
      if consecutive_bad_magic + 1 > 1000 then ([], data)
      else logContainerCollect (data.drop 1) (consecutive_bad_magic + 1)
termination_by data _ => data.length
decreasing_by
  · exact readObject_ok_shorter hread
  · have : data ≠ [] := by
      intro hnil
      rw [hnil] at hread
      exact absurd hread (by simp [readObject])
    have : 0 < data.length := List.length_pos.mpr this
    simp [List.length_drop]
    omega

/-- Per-container part of `ObjectIterator::next` (lib.rs:69) for a
log-container payload: `LogContainer::into_iter` (lib.rs:453) prepends the
previous container's leftover bytes to the (decompressed) payload, then the
container iterator runs to exhaustion. -/
def containerObjects (prev_data data : List Nat) : List BlfRecord × List Nat :=
  logContainerCollect (prev_data ++ data) 0

/-- Behaviour of `ObjectIterator` (lib.rs:69) across two consecutive
log-container records with payloads `d1` and `d2`: the first container is
drained, its `remaining_data` tail is stored in `prev_cont_data` (lib.rs:83),
and the second container starts from that tail prepended to `d2`. -/
def spliceTwoContainers (d1 d2 : List Nat) : List BlfRecord :=
  let r1 := containerObjects [] d1
  let r2 := containerObjects r1.2 d2
  r1.1 ++ r2.1

/-! ## Claim theorems -/

/-- C2: the spec's invariant "big-endian extraction of an unsigned 8-bit
signal at start_bit `8k+7` returns `payload[k]`" — and the code's own unit
test `test_extract_big_endian_simple` (message_decoder.rs:240), which
asserts raw = `0xAB` = 171 for payload `[0xAB, 0xCD, 0xEF, 0x12]`,
start_bit = 7, length = 8 — does not hold of `extract_big_endian`: under
the code's MSB-first bit numbering `start_bit = 7` addresses the LSB of
byte 0 and the extraction straddles into byte 1, producing `0xE6` = 230.
`start_bit = 0` is where the code returns `payload[0]`. -/
theorem extract_big_endian_start_bit_seven_mismatch :
    extract_big_endian [0xAB, 0xCD, 0xEF, 0x12] 7 8 = 0xE6 ∧
    (0xE6 : Nat) ≠ 0xAB ∧
    extract_big_endian [0xAB, 0xCD, 0xEF, 0x12] 0 8 = 0xAB := by
  refine ⟨by decide, by decide, by decide⟩

/-- C3: for every bit length `L` with `1 ≤ L ≤ 63` and raw value
`R < 2 ^ L`, `sign_extend` returns `R` when `R < 2 ^ (L-1)` and `R - 2 ^ L`
otherwise. -/
theorem sign_extend_law (L R : Nat) (hL1 : 1 ≤ L) (hL2 : L ≤ 63) (hR : R < 2 ^ L) :
    sign_extend R L = if R < 2 ^ (L - 1) then (R : Int) else (R : Int) - 2 ^ L := by
  have h64 : ¬ L ≥ 64 := by omega
  have hsb : (1 <<< (L - 1)) % 2 ^ 64 = 2 ^ (L - 1) := by
    rw [Nat.one_shiftLeft]
    exact Nat.mod_eq_of_lt (Nat.pow_lt_pow_right (by norm_num) (by omega))
  have hLsplit : 2 ^ L = 2 ^ (L - 1) * 2 := by
    rw [← Nat.pow_succ]
    congr 1
    omega
  have h2L64 : (2 ^ L : Nat) ≤ 2 ^ 64 := Nat.pow_le_pow_right (by norm_num) (by omega)
  have h2L63 : (2 ^ L : Nat) ≤ 2 ^ 63 := Nat.pow_le_pow_right (by norm_num) hL2
  unfold sign_extend
  rw [if_neg h64]
  simp only [hsb]
  by_cases hcase : R < 2 ^ (L - 1)
  · have htb : R.testBit (L - 1) = false := Nat.testBit_lt_two_pow hcase
    rw [Nat.and_two_pow, htb]
    rw [if_neg (by simp)]
    rw [if_pos hcase]
    have hlt63 : R < 2 ^ 63 :=
      lt_of_lt_of_le hcase (Nat.pow_le_pow_right (by norm_num) (by omega))
    unfold u64AsI64
    rw [if_pos hlt63]
  · have htb : R.testBit (L - 1) = true := by
      rw [Nat.testBit_to_div_mod]
      have hdiv : R / 2 ^ (L - 1) = 1 := Nat.div_eq_of_lt_le (by omega) (by omega)
      simp [hdiv]
    rw [Nat.and_two_pow, htb]
    have hne : (true : Bool).toNat * 2 ^ (L - 1) ≠ 0 := by
      simp only [Bool.toNat_true, one_mul]
      exact (Nat.two_pow_pos _).ne'
    rw [if_pos hne, if_neg hcase]
    have hpos2 : (1 : Nat) ≤ 2 ^ L := Nat.one_le_two_pow
    have hmask : ((2 ^ 64 - 1) <<< L) % 2 ^ 64 = 2 ^ 64 - 2 ^ L := by
      rw [Nat.shiftLeft_eq]
      have key : (2 ^ 64 - 1) * 2 ^ L = (2 ^ 64 - 2 ^ L) + 2 ^ 64 * (2 ^ L - 1) := by
        generalize (2 : Nat) ^ L = x at h2L64 hpos2 ⊢
        omega
      rw [key, Nat.add_mul_mod_self_left, Nat.mod_eq_of_lt (by omega)]
    rw [hmask]
    have hfact : (2 ^ 64 - 2 ^ L : Nat) = 2 ^ L * (2 ^ (64 - L) - 1) := by
      rw [Nat.mul_sub_one, ← Nat.pow_add]
      congr 2
      omega
    have hor : R ||| (2 ^ 64 - 2 ^ L) = (2 ^ 64 - 2 ^ L) + R := by
      rw [Nat.lor_comm, hfact]
      exact (Nat.mul_add_lt_is_or hR _).symm
    rw [hor]
    have hge : (2 ^ 64 - 2 ^ L : Nat) + R ≥ 2 ^ 63 := by omega
    unfold u64AsI64
    rw [if_neg (by omega)]
    rw [Nat.cast_add, Nat.cast_sub h2L64]
    push_cast
    ring

/-- Witness for `sign_extend_law` at L = 8, R = 0xFF (the spec's "signed
negative" seed case, where the law yields 255 - 256 = -1). -/
theorem sign_extend_law_witness :
    ((1 ≤ 8 ∧ 8 ≤ 63 ∧ 0xFF < 2 ^ 8) ∧
      sign_extend 0xFF 8 =
        if (0xFF : Nat) < 2 ^ (8 - 1) then ((0xFF : Nat) : Int)
        else ((0xFF : Nat) : Int) - 2 ^ 8) ∧
    sign_extend 0xFF 8 = -1 :=
  ⟨⟨⟨by decide, by decide, by decide⟩,
    sign_extend_law 8 0xFF (by decide) (by decide) (by decide)⟩, by decide⟩

/-- C7: every signal definition produced by the DBC conversion carries an
empty value-label table (`convert_signal` hard-codes `value_table = None`
at dbc.rs:124), so decoding a raw value never attaches a label for
DBC-sourced signals — the `VAL_` records the spec says populate the table
are discarded. -/
theorem dbc_value_table_always_none (dbc_sig : DbcSignal)
    (multiplexer_signal_name : Option String) (s : SignalDefinition)
    (h : convert_signal dbc_sig multiplexer_signal_name = Except.ok s) :
    s.value_table = none ∧
    ∀ (data : List Nat) (ds : DecodedSignal),
      decode_signal data s = some ds → ds.value_description = none := by
  have hvt : s.value_table = none := by
    unfold convert_signal at h
    rcases hind : dbc_sig.multiplexer_indicator with _ | sv | sv | _ <;>
      rw [hind] at h
    · cases h
      rfl
    · rcases multiplexer_signal_name with _ | n <;> simp only at h
      · exact absurd h (by simp)
      · cases h
        rfl
    · cases h
      rfl
    · cases h
      rfl
  refine ⟨hvt, ?_⟩
  intro data ds hds
  unfold decode_signal at hds
  cases hex : extract_signal_value data s with
  | none =>
    rw [hex] at hds
    exact absurd hds (by simp)
  | some raw_value =>
    rw [hex] at hds
    simp only [Option.some_inj] at hds
    rw [← hds]
    simp [hvt]

/-- Concrete DBC signal used by the C7 witness: `SG_ EngineSpeed : 0|8@1+
(1,0) [0|255] "" ...` as handed over by the `can_dbc` crate. -/
def cDbcSig : DbcSignal :=
  ⟨"EngineSpeed", 0, 8, ByteOrder.LittleEndian, ValueType.Unsigned,
    1, 0, 0, 255, "", MultiplexIndicator.Plain⟩

/-- Image of `cDbcSig` under `convert_signal`. -/
def cSigDef : SignalDefinition :=
  ⟨"EngineSpeed", 0, 8, ByteOrder.LittleEndian, ValueType.Unsigned,
    1, 0, 0, 255, none, none, none⟩

/-- Decoded signal for `cSigDef` on the one-byte payload `[0x96]`. -/
def cDs : DecodedSignal :=
  ⟨"EngineSpeed", SignalValue.Integer 150, none, none, 150⟩

/-- Witness for `dbc_value_table_always_none` on the concrete signal
`cDbcSig` and payload `[0x96]`. -/
theorem dbc_value_table_always_none_witness :
    convert_signal cDbcSig none = Except.ok cSigDef ∧
    cSigDef.value_table = none ∧
    decode_signal [0x96] cSigDef = some cDs ∧
    cDs.value_description = none :=
  ⟨by decide, (dbc_value_table_always_none cDbcSig none cSigDef (by decide)).1,
   by decide,
   (dbc_value_table_always_none cDbcSig none cSigDef (by decide)).2
     [0x96] cDs (by decide)⟩

/-- C8 counterexample: the ARXML layout loop pushes a contained PDU BEFORE
checking the accumulated position against the container length
(arxml.rs:435-452), so a declared sub-PDU of size 8 in a container of
declared length 4 is still emitted with `position + size = 8 > 4`,
refuting "every contained PDU terminates within the container's declared
length". -/
theorem contained_pdu_overflow_counterexample :
    ¬ (∀ info ∈ parse_contained_pdus [⟨1, "P", 8⟩] 4,
        info.position + info.size ≤ 4) := by
  decide

theorem pcp_from_head (entries : List ArxmlContainedEntry) (len pos : Nat)
    (info : ContainedPduInfo)
    (h : (parse_contained_pdus_from entries len pos).head? = some info) :
    info.position = pos := by
  cases entries with
  | nil => exact absurd h (by simp [parse_contained_pdus_from])
  | cons e rest =>
    unfold parse_contained_pdus_from at h
    by_cases hov : pos + e.size > len
    · rw [if_pos hov] at h
      cases h
      rfl
    · rw [if_neg hov] at h
      cases h
      rfl

theorem pcp_from_ne_nil (e : ArxmlContainedEntry) (rest : List ArxmlContainedEntry)
    (len pos : Nat) : parse_contained_pdus_from (e :: rest) len pos ≠ [] := by
  unfold parse_contained_pdus_from
  by_cases hov : pos + e.size > len
  · rw [if_pos hov]
    simp
  · rw [if_neg hov]
    simp

theorem pcp_chain (entries : List ArxmlContainedEntry) :
    ∀ (len pos i : Nat) (a b : ContainedPduInfo),
      (parse_contained_pdus_from entries len pos).get? i = some a →
      (parse_contained_pdus_from entries len pos).get? (i + 1) = some b →
      b.position = a.position + a.size := by
  induction entries with
  | nil =>
    intro len pos i a b ha _
    exact absurd ha (by simp [parse_contained_pdus_from])
  | cons e rest ih =>
    intro len pos i a b ha hb
    unfold parse_contained_pdus_from at ha hb
    by_cases hov : pos + e.size > len
    · rw [if_pos hov] at ha hb
      simp only [List.get?_cons_succ, List.get?_nil] at hb
      exact absurd hb (by simp)
    · rw [if_neg hov] at ha hb
      cases i with
      | zero =>
        simp only [List.get?_cons_zero, Option.some_inj] at ha
        simp only [List.get?_cons_succ] at hb
        have hb' : (parse_contained_pdus_from rest len (pos + e.size)).head? = some b := by
          rw [← List.get?_zero]
          exact hb
        have := pcp_from_head rest len (pos + e.size) b hb'
        rw [this, ← ha]
      | succ j =>
        simp only [List.get?_cons_succ] at ha hb
        exact ih len (pos + e.size) j a b ha hb

theorem pcp_bound (entries : List ArxmlContainedEntry) :
    ∀ (len pos : Nat),
      ∀ info ∈ (parse_contained_pdus_from entries len pos).dropLast,
        info.position + info.size ≤ len := by
  induction entries with
  | nil =>
    intro len pos info hmem
    exact absurd hmem (by simp [parse_contained_pdus_from])
  | cons e rest ih =>
    intro len pos info hmem
    unfold parse_contained_pdus_from at hmem
    by_cases hov : pos + e.size > len
    · rw [if_pos hov] at hmem
      exact absurd hmem (by simp)
    · rw [if_neg hov] at hmem
      cases rest with
      | nil =>
        simp [parse_contained_pdus_from] at hmem
      | cons r rs =>
        obtain ⟨t0, ts, hts⟩ :=
          List.exists_cons_of_ne_nil (pcp_from_ne_nil r rs len (pos + e.size))
        rw [hts] at hmem
        rw [List.dropLast_cons₂] at hmem
        rcases List.mem_cons.mp hmem with hinfo | htail
        · rw [hinfo]
          simpa using hov
        · rw [← hts] at htail
          exact ih len (pos + e.size) info htail

/-- C8 amended: every Static container layout produced by
`parse_contained_pdus` starts at byte offset 0 and is sequential (each PDU
starts where the previous one ends, hence monotone and non-overlapping),
and every contained PDU EXCEPT POSSIBLY THE LAST terminates within the
container's declared length — the overflow check runs only after the
offending PDU has been pushed, so the final entry may overflow. -/
theorem contained_pdus_layout (entries : List ArxmlContainedEntry)
    (container_length : Nat) :
    (∀ info, (parse_contained_pdus entries container_length).head? = some info →
      info.position = 0) ∧
    (∀ (i : Nat) (a b : ContainedPduInfo),
      (parse_contained_pdus entries container_length).get? i = some a →
      (parse_contained_pdus entries container_length).get? (i + 1) = some b →
      b.position = a.position + a.size) ∧
    (∀ info ∈ (parse_contained_pdus entries container_length).dropLast,
      info.position + info.size ≤ container_length) := by
  refine ⟨?_, ?_, ?_⟩
  · intro info h
    exact pcp_from_head entries container_length 0 info h
  · intro i a b ha hb
    exact pcp_chain entries container_length 0 i a b ha hb
  · intro info hmem
    exact pcp_bound entries container_length 0 info hmem

/-- Witness for `contained_pdus_layout` on a two-entry layout in an
8-byte container. -/
theorem contained_pdus_layout_witness :
    (parse_contained_pdus [⟨1, "A", 2⟩, ⟨2, "B", 3⟩] 8).get? 0 =
        some ⟨1, "A", 0, 2⟩ ∧
    (parse_contained_pdus [⟨1, "A", 2⟩, ⟨2, "B", 3⟩] 8).get? 1 =
        some ⟨2, "B", 2, 3⟩ ∧
    (⟨2, "B", 2, 3⟩ : ContainedPduInfo).position =
      (⟨1, "A", 0, 2⟩ : ContainedPduInfo).position +
        (⟨1, "A", 0, 2⟩ : ContainedPduInfo).size :=
  ⟨by decide, by decide,
   (contained_pdus_layout [⟨1, "A", 2⟩, ⟨2, "B", 3⟩] 8).2.1 0
     ⟨1, "A", 0, 2⟩ ⟨2, "B", 2, 3⟩ (by decide) (by decide)⟩

/-- Frame for the C6 counterexample: a one-byte container payload. -/
def c6Frame : CanFrame := ⟨0, 0, 0x100, [0x11], false, false, false, false⟩

/-- Declared sub-PDUs for the C6 counterexample: six 2-byte sub-PDUs that
overflow the 1-byte payload, then a 1-byte sub-PDU that fits. -/
def c6Pdus : List ContainedPduInfo :=
  [⟨1, "P1", 0, 2⟩, ⟨2, "P2", 0, 2⟩, ⟨3, "P3", 0, 2⟩, ⟨4, "P4", 0, 2⟩,
   ⟨5, "P5", 0, 2⟩, ⟨6, "P6", 0, 2⟩, ⟨7, "P7", 0, 1⟩]

/-- C6 counterexample: decoding does NOT stop once the warning cap is
reached.  With six overflowing sub-PDUs the counter passes `MAX_WARNINGS`
at the fifth, yet the sixth is still examined and the seventh — a fitting
sub-PDU declared after the cap was exceeded — is still sliced and recorded
(`continue` skips only the offending sub-PDU, container_decoder.rs:103).
Only 5 overflow warnings are logged, so the cap half of the claim holds. -/
theorem static_cap_stop_counterexample :
    (static_scan SignalDatabase.empty c6Frame c6Pdus).warning_count = 6 ∧
    (static_scan SignalDatabase.empty c6Frame c6Pdus).warnings_logged = 5 ∧
    (static_scan SignalDatabase.empty c6Frame c6Pdus).contained =
      [⟨7, "P7", [0x11]⟩] := by
  decide

theorem static_fold (db : SignalDatabase) (frame : CanFrame) :
    ∀ (pdus : List ContainedPduInfo) (st : StaticScan),
      (pdus.foldl (static_step db frame) st).contained =
        st.contained ++
          (pdus.filter
            (fun p => decide (p.position + p.size ≤ frame.data.length))).map
            (fun p => ContainedPdu.mk p.pdu_id p.name
              ((frame.data.drop p.position).take p.size)) ∧
      (pdus.foldl (static_step db frame) st).warning_count =
        st.warning_count +
          (pdus.filter
            (fun p => decide (p.position + p.size > frame.data.length))).length ∧
      (pdus.foldl (static_step db frame) st).warnings_logged =
        st.warnings_logged +
          (min MAX_WARNINGS
            (st.warning_count +
              (pdus.filter
                (fun p => decide (p.position + p.size > frame.data.length))).length) -
           min MAX_WARNINGS st.warning_count) ∧
      (pdus.foldl (static_step db frame) st).decoded =
        st.decoded ++
          pdus.filterMap (fun p =>
            if p.position + p.size ≤ frame.data.length then
              match db.get_message_by_name p.name with
              | some md =>
                decode_pdu_data ((frame.data.drop p.position).take p.size) md
                  frame.timestamp_ns
              | none => none
            else none) := by
  intro pdus
  induction pdus with
  | nil =>
    intro st
    simp [MAX_WARNINGS]
  | cons p rest ih =>
    intro st
    rw [List.foldl_cons]
    obtain ⟨ihc, ihw, ihl, ihd⟩ := ih (static_step db frame st p)
    by_cases hov : p.position + p.size > frame.data.length
    · have hfit : ¬ (p.position + p.size ≤ frame.data.length) := by omega
      refine ⟨?_, ?_, ?_, ?_⟩
      · rw [ihc]
        simp [static_step, hov, hfit]
      · rw [ihw]
        simp [static_step, hov]
        omega
      · rw [ihl]
        simp only [static_step, if_pos hov, List.filter_cons, decide_eq_true_eq,
          List.length_cons, MAX_WARNINGS]
        split <;> omega
      · rw [ihd]
        simp [static_step, hov, hfit]
    · have hfit : p.position + p.size ≤ frame.data.length := by omega
      refine ⟨?_, ?_, ?_, ?_⟩
      · rw [ihc]
        simp [static_step, hov, hfit]
      · rw [ihw]
        simp [static_step, hov]
      · rw [ihl]
        simp [static_step, hov]
      · rw [ihd]
        simp only [static_step, if_neg hov, List.filterMap_cons]
        rw [if_pos hfit]
        cases hdb : db.get_message_by_name p.name with
        | none => simp
        | some md =>
          cases hdec : decode_pdu_data ((frame.data.drop p.position).take p.size)
              md frame.timestamp_ns with
          | none => simp [hdec]
          | some ev => simp [hdec]

/-- C6 amended: for every static container, each declared sub-PDU whose
byte range overflows the frame payload is skipped with a warning, at most
`MAX_WARNINGS` = 5 such warnings are logged per container, and decoding
CONTINUES over the remaining declared sub-PDUs (the fitting ones are all
sliced, recorded and decoded) rather than stopping at the cap. -/
theorem static_overflow_skip_and_cap (db : SignalDatabase) (frame : CanFrame)
    (pdus : List ContainedPduInfo) :
    (static_scan db frame pdus).warnings_logged ≤ MAX_WARNINGS ∧
    (static_scan db frame pdus).warnings_logged =
      min MAX_WARNINGS
        ((pdus.filter
          (fun p => decide (p.position + p.size > frame.data.length))).length) ∧
    (static_scan db frame pdus).contained =
      (pdus.filter
        (fun p => decide (p.position + p.size ≤ frame.data.length))).map
        (fun p => ContainedPdu.mk p.pdu_id p.name
          ((frame.data.drop p.position).take p.size)) ∧
    (static_scan db frame pdus).decoded =
      pdus.filterMap (fun p =>
        if p.position + p.size ≤ frame.data.length then
          match db.get_message_by_name p.name with
          | some md =>
            decode_pdu_data ((frame.data.drop p.position).take p.size) md
              frame.timestamp_ns
          | none => none
        else none) := by
  obtain ⟨hc, hw, hl, hd⟩ := static_fold db frame pdus ⟨[], [], 0, 0⟩
  unfold static_scan
  refine ⟨?_, ?_, ?_, ?_⟩
  · rw [hl]
    simp only [Nat.zero_add, Nat.min_zero, Nat.sub_zero]
    omega
  · rw [hl]
    simp
  · rw [hc]
    simp
  · rw [hd]
    simp

/-! ### C10: insertion order semantics of the signal database -/

/-- Database obtained by a sequence of `add_message` calls on an empty
database (the loader loop of `Decoder::add_dbc` / `add_arxml`). -/
def SignalDatabase.addAll (msgs : List MessageDefinition) : SignalDatabase :=
  msgs.foldl SignalDatabase.add_message SignalDatabase.empty

theorem lookup_alistInsert_self {α β : Type} [BEq α] [LawfulBEq α]
    (l : List (α × β)) (k : α) (v : β) :
    List.lookup k (alistInsert l k v) = some v := by
  induction l with
  | nil => simp [alistInsert, List.lookup]
  | cons kv rest ih =>
    obtain ⟨k', v'⟩ := kv
    unfold alistInsert
    by_cases h : k' = k
    · rw [if_pos (by simp [h])]
      simp [List.lookup]
    · rw [if_neg (by simp [h])]
      have hk : (k == k') = false := by
        simp
        exact fun hc => h hc.symm
      simp [List.lookup, hk, ih]

theorem lookup_alistInsert_ne {α β : Type} [BEq α] [LawfulBEq α]
    (l : List (α × β)) (k k₂ : α) (v : β) (hne : k₂ ≠ k) :
    List.lookup k₂ (alistInsert l k v) = List.lookup k₂ l := by
  induction l with
  | nil =>
    have h : (k₂ == k) = false := by simp [hne]
    simp [alistInsert, List.lookup, h]
  | cons kv rest ih =>
    obtain ⟨k', v'⟩ := kv
    unfold alistInsert
    by_cases h : k' = k
    · rw [if_pos (by simp [h])]
      have h1 : (k₂ == k) = false := by simp [hne]
      have h2 : (k₂ == k') = false := by simp [h ▸ hne]
      simp [List.lookup, h1, h2]
    · rw [if_neg (by simp [h])]
      by_cases h3 : k₂ = k'
      · simp [List.lookup, h3]
      · have h4 : (k₂ == k') = false := by simp [h3]
        simp [List.lookup, h4, ih]

theorem lookup_alistModify_self {α β : Type} [BEq α] [LawfulBEq α]
    (l : List (α × β)) (k : α) (d : β) (f : β → β) :
    List.lookup k (alistModify l k d f) =
      some (f ((List.lookup k l).getD d)) := by
  induction l with
  | nil => simp [alistModify, List.lookup]
  | cons kv rest ih =>
    obtain ⟨k', v'⟩ := kv
    unfold alistModify
    by_cases h : k' = k
    · rw [if_pos (by simp [h])]
      simp [List.lookup, h]
    · rw [if_neg (by simp [h])]
      have hk : (k == k') = false := by
        simp
        exact fun hc => h hc.symm
      simp [List.lookup, hk, ih]

theorem lookup_alistModify_ne {α β : Type} [BEq α] [LawfulBEq α]
    (l : List (α × β)) (k k₂ : α) (d : β) (f : β → β) (hne : k₂ ≠ k) :
    List.lookup k₂ (alistModify l k d f) = List.lookup k₂ l := by
  induction l with
  | nil =>
    have h : (k₂ == k) = false := by simp [hne]
    simp [alistModify, List.lookup, h]
  | cons kv rest ih =>
    obtain ⟨k', v'⟩ := kv
    unfold alistModify
    by_cases h : k' = k
    · rw [if_pos (by simp [h])]
      have h1 : (k₂ == k) = false := by simp [hne]
      have h2 : (k₂ == k') = false := by simp [h ▸ hne]
      simp [List.lookup, h1, h2]
    · rw [if_neg (by simp [h])]
      by_cases h3 : k₂ = k'
      · simp [List.lookup, h3]
      · have h4 : (k₂ == k') = false := by simp [h3]
        simp [List.lookup, h4, ih]

theorem add_message_messages (db : SignalDatabase) (m : MessageDefinition) :
    (db.add_message m).messages =
      alistModify db.messages m.id [] (fun v => v ++ [m]) := rfl

theorem add_message_message_lookup (db : SignalDatabase) (m : MessageDefinition) :
    (db.add_message m).message_lookup =
      alistInsert db.message_lookup m.name
        (m.id, ((List.lookup m.id db.messages).map List.length).getD 0) := rfl

theorem addAll_append_singleton (ms : List MessageDefinition)
    (mm : MessageDefinition) :
    SignalDatabase.addAll (ms ++ [mm]) =
      (SignalDatabase.addAll ms).add_message mm := by
  simp [SignalDatabase.addAll, List.foldl_append]

theorem addAll_messages (msgs : List MessageDefinition) (id : Nat) :
    List.lookup id (SignalDatabase.addAll msgs).messages =
      (if msgs.filter (fun m => m.id == id) = [] then none
       else some (msgs.filter (fun m => m.id == id))) := by
  induction msgs using List.reverseRecOn with
  | nil => simp [SignalDatabase.addAll, SignalDatabase.empty, List.lookup]
  | append_singleton ms mm ih =>
    rw [addAll_append_singleton, add_message_messages]
    by_cases hid : mm.id = id
    · subst hid
      rw [lookup_alistModify_self, ih]
      have hmm : List.filter (fun m => m.id == mm.id) [mm] = [mm] := by simp
      by_cases hE : ms.filter (fun m => m.id == mm.id) = []
      · rw [if_pos hE]
        simp [List.filter_append, hmm, hE]
      · rw [if_neg hE]
        have hne : ms.filter (fun m => m.id == mm.id) ++ [mm] ≠ [] := by simp
        simp [List.filter_append, hmm, hne]
    · rw [lookup_alistModify_ne _ _ _ _ _ (fun hc => hid hc.symm), ih]
      have hmm : List.filter (fun m => m.id == id) [mm] = [] := by simp [hid]
      simp [List.filter_append, hmm]

theorem addAll_by_name (msgs : List MessageDefinition) (name : String) :
    ((msgs.filter (fun m => m.name == name)).getLast? = none →
      List.lookup name (SignalDatabase.addAll msgs).message_lookup = none) ∧
    (∀ m, (msgs.filter (fun m => m.name == name)).getLast? = some m →
      ∃ idx, List.lookup name (SignalDatabase.addAll msgs).message_lookup =
          some (m.id, idx) ∧
        ((List.lookup m.id (SignalDatabase.addAll msgs).messages).getD []).get? idx =
          some m) := by
  induction msgs using List.reverseRecOn with
  | nil =>
    constructor
    · intro _
      simp [SignalDatabase.addAll, SignalDatabase.empty, List.lookup]
    · intro m hm
      exact absurd hm (by simp)
  | append_singleton ms mm ih =>
    rw [addAll_append_singleton, add_message_message_lookup, add_message_messages]
    by_cases hn : mm.name = name
    · have hfmm : List.filter (fun m => m.name == name) [mm] = [mm] := by simp [hn]
      have hlast : ((ms ++ [mm]).filter (fun m => m.name == name)).getLast? =
          some mm := by
        rw [List.filter_append, hfmm, List.getLast?_concat]
      constructor
      · intro hnone
        rw [hlast] at hnone
        exact absurd hnone (by simp)
      · intro m hm
        rw [hlast] at hm
        have hmmm : m = mm := by
          cases hm
          rfl
        subst hmmm
        refine ⟨((List.lookup m.id (SignalDatabase.addAll ms).messages).map
            List.length).getD 0, ?_, ?_⟩
        · rw [← hn]
          exact lookup_alistInsert_self _ _ _
        · rw [lookup_alistModify_self]
          cases hms : List.lookup m.id (SignalDatabase.addAll ms).messages with
          | none => simp [hms]
          | some old => simp [hms, List.get?_concat_length]
    · have hfmm : List.filter (fun m => m.name == name) [mm] = [] := by simp [hn]
      have hfilter : (ms ++ [mm]).filter (fun m => m.name == name) =
          ms.filter (fun m => m.name == name) := by
        rw [List.filter_append, hfmm, List.append_nil]
      rw [hfilter]
      have hml : List.lookup name (alistInsert
          (SignalDatabase.addAll ms).message_lookup mm.name
          (mm.id, ((List.lookup mm.id (SignalDatabase.addAll ms).messages).map
            List.length).getD 0)) =
          List.lookup name (SignalDatabase.addAll ms).message_lookup :=
        lookup_alistInsert_ne _ _ _ _ (fun hc => hn hc.symm)
      rw [hml]
      constructor
      · intro hnone
        exact ih.1 hnone
      · intro m hm
        obtain ⟨idx, hidx, hget⟩ := ih.2 m hm
        refine ⟨idx, hidx, ?_⟩
        by_cases hid2 : m.id = mm.id
        · rw [hid2, lookup_alistModify_self]
          rw [← hid2]
          cases hms : List.lookup m.id (SignalDatabase.addAll ms).messages with
          | none =>
            rw [hms] at hget
            simp at hget
          | some old =>
            rw [hms] at hget
            simp only [Option.getD_some] at hget
            obtain ⟨hlt, _⟩ := List.get?_eq_some.mp hget
            simp only [Option.getD_some]
            rw [List.get?_append hlt]
            exact hget
        · rw [lookup_alistModify_ne _ _ _ _ _ hid2]
          exact hget

/-- C10: over any sequence of `add_message` calls starting from the empty
database, id lookup is first-added-wins while name lookup is
last-added-wins: `get_message id` returns the first added definition with
that CAN id, and `get_message_by_name` returns the most recently added
definition with that name (the name index is overwritten on each insertion,
database.rs:180, while the per-id list only appends, database.rs:183). -/
theorem database_lookup_semantics (msgs : List MessageDefinition) (id : Nat)
    (name : String) :
    (SignalDatabase.addAll msgs).get_message id =
      (msgs.filter (fun m => m.id == id)).head? ∧
    (SignalDatabase.addAll msgs).get_message_by_name name =
      (msgs.filter (fun m => m.name == name)).getLast? := by
  constructor
  · unfold SignalDatabase.get_message
    rw [addAll_messages]
    by_cases hE : msgs.filter (fun m => m.id == id) = []
    · rw [if_pos hE, hE]
      rfl
    · rw [if_neg hE]
      cases hF : msgs.filter (fun m => m.id == id) with
      | nil => exact absurd hF hE
      | cons a rest => simp
  · unfold SignalDatabase.get_message_by_name
    cases hlast : (msgs.filter (fun m => m.name == name)).getLast? with
    | none =>
      rw [(addAll_by_name msgs name).1 hlast]
      rfl
    | some m =>
      obtain ⟨idx, hidx, hget⟩ := (addAll_by_name msgs name).2 m hlast
      rw [hidx]
      simp only [Option.some_bind]
      cases hms : List.lookup m.id (SignalDatabase.addAll msgs).messages with
      | none =>
        rw [hms] at hget
        simp at hget
      | some old =>
        rw [hms] at hget
        simp only [Option.getD_some] at hget
        simpa using hget

/-! ### C5: routing precedence in the composing iterator -/

theorem decode_container_head (frame : CanFrame) (cd : ContainerDefinition)
    (db : SignalDatabase) (evs : List DecodedEvent)
    (h : decode_container frame cd db = Except.ok evs) :
    ∃ contained, evs.head? = some (DecodedEvent.ContainerPdu frame.timestamp_ns
      cd.id cd.name cd.container_type contained) := by
  unfold decode_container at h
  cases hl : cd.layout with
  | Static pdus =>
    rw [hl] at h
    simp only at h
    cases h
    exact ⟨(static_scan db frame pdus).contained, by simp [decode_static_container]⟩
  | Dynamic header_size pdus =>
    rw [hl] at h
    simp only at h
    by_cases hsmall : frame.data.length < header_size
    · rw [if_pos hsmall] at h
      exact absurd h (by simp)
    · rw [if_neg hsmall] at h
      cases hloop : decode_dynamic_loop db frame.data frame.timestamp_ns
          header_size pdus 0 [] [] with
      | error e =>
        rw [hloop] at h
        exact absurd h (by simp [Except.map])
      | ok r =>
        rw [hloop] at h
        simp only [Except.map] at h
        cases h
        exact ⟨r.1, rfl⟩
  | Queued pdu_id pdu_size =>
    rw [hl] at h
    simp only at h
    cases h
    exact ⟨_, rfl⟩

/-- C5: routing of a pulled frame by CAN id.  Containers take precedence
(the container decoder runs whenever the id has a container definition,
message definition or not, and its first event is the container event);
with only a message definition the message decoder runs, falling back to a
raw-frame event when it decodes no signal; an id known to neither table
yields a raw-frame event, never an iterator error. -/
theorem process_frame_routing (db : SignalDatabase) (pending : List DecodedEvent)
    (frame : CanFrame) :
    (∀ cd, db.get_container frame.can_id = some cd →
      ∀ evs, decode_container frame cd db = Except.ok evs →
        (process_frame db pending frame).1 = Except.ok evs.head? ∧
        ∃ contained, evs.head? = some (DecodedEvent.ContainerPdu
          frame.timestamp_ns cd.id cd.name cd.container_type contained)) ∧
    (db.get_container frame.can_id = none →
      ∀ md, db.get_message frame.can_id = some md →
        process_frame db pending frame =
          (Except.ok (some ((decode_message frame md).getD
            (DecodedEvent.RawFrame frame.timestamp_ns frame.channel frame.can_id
              frame.data frame.is_fd))), pending)) ∧
    (db.get_container frame.can_id = none →
      db.get_message frame.can_id = none →
      process_frame db pending frame =
        (Except.ok (some (DecodedEvent.RawFrame frame.timestamp_ns frame.channel
          frame.can_id frame.data frame.is_fd)), pending)) := by
  refine ⟨?_, ?_, ?_⟩
  · intro cd hcd evs hevs
    unfold process_frame
    rw [hcd]
    simp only
    rw [hevs]
    exact ⟨rfl, decode_container_head frame cd db evs hevs⟩
  · intro hnc md hmd
    unfold process_frame
    rw [hnc]
    simp only
    rw [hmd]
    simp only
    cases hdm : decode_message frame md with
    | some ev => simp [hdm]
    | none => simp [hdm]
  · intro hnc hnm
    unfold process_frame
    rw [hnc]
    simp only
    rw [hnm]

/-! ### Shared concrete fixture: a static container whose two contained
PDUs resolve to message definitions (used by the C1 and C5 evaluations). -/

/-- 8-bit unsigned little-endian signal at bit 0, unit scaling. -/
def fixSig (nm : String) : SignalDefinition :=
  ⟨nm, 0, 8, ByteOrder.LittleEndian, ValueType.Unsigned, 1, 0, 0, 255,
    none, none, none⟩

/-- Message definition for contained PDU "P1". -/
def fixMsgP1 : MessageDefinition :=
  ⟨0x10, "P1", 2, none, [fixSig "S1"], false, none, "a.arxml"⟩

/-- Message definition for contained PDU "P2". -/
def fixMsgP2 : MessageDefinition :=
  ⟨0x11, "P2", 2, none, [fixSig "S2"], false, none, "a.arxml"⟩

/-- Message definition sharing the container's CAN id 0x100 (to exercise
container precedence). -/
def fixMsg100 : MessageDefinition :=
  ⟨0x100, "M100", 4, none, [fixSig "S100"], false, none, "b.dbc"⟩

/-- Static container at CAN id 0x100 with two 2-byte contained PDUs. -/
def fixContainer : ContainerDefinition :=
  ⟨0x100, "CONT", ContainerType.Static,
    ContainerLayout.Static [⟨1, "P1", 0, 2⟩, ⟨2, "P2", 2, 2⟩], "a.arxml"⟩

/-- Database holding the three messages and the container. -/
def fixDb : SignalDatabase :=
  ((((SignalDatabase.empty.add_message fixMsgP1).add_message
    fixMsgP2).add_message fixMsg100).add_container fixContainer)

/-- Frame carrying the container payload `[1, 2, 3, 4]` at id 0x100. -/
def fixFrame : CanFrame := ⟨1000, 0, 0x100, [1, 2, 3, 4], false, false, false, false⟩

/-- Container event produced for `fixFrame`. -/
def fixEventC : DecodedEvent :=
  DecodedEvent.ContainerPdu 1000 0x100 "CONT" ContainerType.Static
    [⟨1, "P1", [1, 2]⟩, ⟨2, "P2", [3, 4]⟩]

/-- Decoded-message event of contained PDU "P1" (slice `[1, 2]`). -/
def fixEventM1 : DecodedEvent :=
  DecodedEvent.Message 1000 0 0x10 (some "P1") none
    [⟨"S1", SignalValue.Integer 1, none, none, 1⟩] false none

/-- Decoded-message event of contained PDU "P2" (slice `[3, 4]`). -/
def fixEventM2 : DecodedEvent :=
  DecodedEvent.Message 1000 0 0x11 (some "P2") none
    [⟨"S2", SignalValue.Integer 3, none, none, 3⟩] false none

/-- C1: container decoding does order its events correctly (container event
first, then one decoded-message event per resolved contained PDU in
contained-PDU order), but the composing iterator does NOT emit them in that
order: `pending_events.pop()` (decoder.rs:254) removes the LAST element of
the buffer the extras were appended to (decoder.rs:208), so the buffered
extras come out LIFO, not FIFO — the code's own comment calls the buffer a
"pending queue".  At this input the iterator emits the container event,
then P2's event, then P1's event. -/
theorem pending_events_emitted_lifo :
    decode_container fixFrame fixContainer fixDb =
      Except.ok [fixEventC, fixEventM1, fixEventM2] ∧
    iter_run fixDb 10 ⟨[Except.ok fixFrame], []⟩ =
      [Except.ok fixEventC, Except.ok fixEventM2, Except.ok fixEventM1] ∧
    fixEventM1 ≠ fixEventM2 := by
  refine ⟨by decide, by decide, by decide⟩

/-- Frame at CAN id 0x10 (message "P1" only, no container). -/
def fixFrameB : CanFrame := ⟨2000, 1, 0x10, [7], false, false, false, false⟩

/-- Frame at CAN id 0x999 (unknown to both tables). -/
def fixFrameC : CanFrame := ⟨3000, 2, 0x999, [9], false, false, false, false⟩

/-- Witness for `process_frame_routing`: on `fixDb`, id 0x100 carries BOTH
a container and a message definition and routes to the container decoder;
id 0x10 routes to the message decoder; unknown id 0x999 becomes a raw-frame
event. -/
theorem process_frame_routing_witness :
    SignalDatabase.get_message fixDb 0x100 = some fixMsg100 ∧
    (process_frame fixDb [] fixFrame).1 = Except.ok (some fixEventC) ∧
    process_frame fixDb [] fixFrameB =
      (Except.ok (some ((decode_message fixFrameB fixMsgP1).getD
        (DecodedEvent.RawFrame 2000 1 0x10 [7] false))), []) ∧
    process_frame fixDb [] fixFrameC =
      (Except.ok (some (DecodedEvent.RawFrame 3000 2 0x999 [9] false)), []) :=
  ⟨by decide,
   by
     have h := ((process_frame_routing fixDb [] fixFrame).1 fixContainer
       (by decide) [fixEventC, fixEventM1, fixEventM2] (by decide)).1
     simpa using h,
   (process_frame_routing fixDb [] fixFrameB).2.1 (by decide) fixMsgP1 (by decide),
   (process_frame_routing fixDb [] fixFrameC).2.2 (by decide) (by decide)⟩

/-! ### C4: multiplexer gating -/

/-- Signals carried by a decoded-message event. -/
def eventSignals : DecodedEvent → List DecodedSignal
  | DecodedEvent.Message _ _ _ _ _ signals _ _ => signals
  | _ => []

theorem contains_mem_iff {α : Type} [BEq α] [LawfulBEq α] (l : List α) (a : α) :
    l.contains a = true ↔ a ∈ l := by
  simp [List.contains]

theorem decode_signal_name (data : List Nat) (s : SignalDefinition)
    (ds : DecodedSignal) (h : decode_signal data s = some ds) :
    ds.name = s.name := by
  unfold decode_signal at h
  cases hex : extract_signal_value data s with
  | none =>
    rw [hex] at h
    exact absurd h (by simp)
  | some raw_value =>
    rw [hex] at h
    simp only [Option.some_inj] at h
    rw [← h]

theorem decode_signal_isSome_iff (data : List Nat) (s : SignalDefinition) :
    (decode_signal data s).isSome = true ↔
      (s.start_bit + s.length + 7) / 8 ≤ data.length := by
  unfold decode_signal extract_signal_value
  by_cases hb : (s.start_bit + s.length + 7) / 8 > data.length
  · rw [if_pos hb]
    simp
    omega
  · rw [if_neg hb]
    simp
    omega

/-- C4: in a multiplexed message whose multiplexer signal extracts to raw
value `v`, a signal with pairwise-distinct name and an in-bounds layout is
included in the emitted event exactly when its gate (if any) lists the
active selector `v as u64`; ungated signals are always included; and no two
gated signals with disjoint activating-value sets appear in the same
event. -/
theorem multiplexer_gating (frame : CanFrame) (md : MessageDefinition)
    (mux_name : String) (ms : SignalDefinition) (v : Int)
    (hmux : md.is_multiplexed = true)
    (hname : md.multiplexer_signal = some mux_name)
    (hfind : md.signals.find? (fun s => s.name == mux_name) = some ms)
    (hext : extract_signal_value frame.data ms = some v)
    (hnodup : (md.signals.map SignalDefinition.name).Nodup) :
    ∀ e, decode_message frame md = some e →
      (∀ s ∈ md.signals, (s.start_bit + s.length + 7) / 8 ≤ frame.data.length →
        ((∃ ds ∈ eventSignals e, ds.name = s.name) ↔
          (∀ g, s.multiplexer_info = some g →
            i64AsU64 v ∈ g.multiplexer_values))) ∧
      (∀ s1 ∈ md.signals, ∀ s2 ∈ md.signals,
        ∀ g1 g2, s1.multiplexer_info = some g1 → s2.multiplexer_info = some g2 →
        (∀ x, ¬ (x ∈ g1.multiplexer_values ∧ x ∈ g2.multiplexer_values)) →
        ¬ ((∃ ds ∈ eventSignals e, ds.name = s1.name) ∧
           (∃ ds ∈ eventSignals e, ds.name = s2.name))) := by
  intro e hde
  unfold decode_message at hde
  rw [hmux] at hde
  simp only [if_true] at hde
  rw [hname] at hde
  simp only at hde
  rw [hfind] at hde
  simp only at hde
  rw [hext] at hde
  simp only at hde
  set f : SignalDefinition → Option DecodedSignal := fun s =>
    match s.multiplexer_info with
    | some mux_info =>
      if mux_info.multiplexer_values.contains (i64AsU64 v) then
        decode_signal frame.data s
      else none
    | none => decode_signal frame.data s with hf
  split at hde
  · exact absurd hde (by simp)
  · have hse : eventSignals e = md.signals.filterMap f := by
      cases hde
      rfl
    have hinj : ∀ x ∈ md.signals, ∀ y ∈ md.signals,
        x.name = y.name → x = y :=
      fun x hx y hy hxy => List.inj_on_of_nodup_map hnodup hx hy hxy
    have hmem_of : ∀ s ∈ md.signals,
        (∃ ds ∈ eventSignals e, ds.name = s.name) →
        ∃ ds, f s = some ds := by
      intro s hs ⟨ds, hds, hdsn⟩
      rw [hse] at hds
      obtain ⟨s', hs', hfs'⟩ := List.mem_filterMap.mp hds
      have hdec' : decode_signal frame.data s' = some ds := by
        rw [hf] at hfs'
        simp only at hfs'
        cases hmi : s'.multiplexer_info with
        | none =>
          rw [hmi] at hfs'
          exact hfs'
        | some g =>
          rw [hmi] at hfs'
          simp only at hfs'
          by_cases hc : g.multiplexer_values.contains (i64AsU64 v)
          · rw [if_pos hc] at hfs'
            exact hfs'
          · rw [if_neg hc] at hfs'
            exact absurd hfs' (by simp)
      have hname' : s'.name = s.name := by
        rw [← hdsn, decode_signal_name frame.data s' ds hdec']
      have : s' = s := hinj s' hs' s hs hname'
      rw [← this]
      exact ⟨ds, hfs'⟩
    refine ⟨?_, ?_⟩
    · intro s hs hfit
      constructor
      · intro hin g hg
        obtain ⟨ds, hfs⟩ := hmem_of s hs hin
        rw [hf] at hfs
        simp only at hfs
        rw [hg] at hfs
        simp only at hfs
        by_cases hc : g.multiplexer_values.contains (i64AsU64 v)
        · exact (contains_mem_iff _ _).mp hc
        · rw [if_neg hc] at hfs
          exact absurd hfs (by simp)
      · intro hact
        have hds : ∃ ds, decode_signal frame.data s = some ds := by
          have := (decode_signal_isSome_iff frame.data s).mpr hfit
          exact Option.isSome_iff_exists.mp this
        obtain ⟨ds, hds⟩ := hds
        have hfs : f s = some ds := by
          rw [hf]
          simp only
          cases hmi : s.multiplexer_info with
          | none => exact hds
          | some g =>
            simp only
            rw [if_pos ((contains_mem_iff _ _).mpr (hact g hmi))]
            exact hds
        refine ⟨ds, ?_, decode_signal_name frame.data s ds hds⟩
        rw [hse]
        exact List.mem_filterMap.mpr ⟨s, hs, hfs⟩
    · intro s1 hs1 s2 hs2 g1 g2 hg1 hg2 hdisj ⟨hin1, hin2⟩
      obtain ⟨ds1, hfs1⟩ := hmem_of s1 hs1 hin1
      obtain ⟨ds2, hfs2⟩ := hmem_of s2 hs2 hin2
      rw [hf] at hfs1 hfs2
      simp only at hfs1 hfs2
      rw [hg1] at hfs1
      rw [hg2] at hfs2
      simp only at hfs1 hfs2
      by_cases hc1 : g1.multiplexer_values.contains (i64AsU64 v)
      · by_cases hc2 : g2.multiplexer_values.contains (i64AsU64 v)
        · exact hdisj (i64AsU64 v)
            ⟨(contains_mem_iff _ _).mp hc1, (contains_mem_iff _ _).mp hc2⟩
        · rw [if_neg hc2] at hfs2
          exact absurd hfs2 (by simp)
      · rw [if_neg hc1] at hfs1
        exact absurd hfs1 (by simp)

/-- Multiplexer signal of the witness message (spec seed case 5). -/
def muxSigMode : SignalDefinition :=
  ⟨"Mode", 0, 8, ByteOrder.LittleEndian, ValueType.Unsigned, 1, 0, 0, 255,
    none, none, none⟩

/-- Gated signal `SignalA m0`. -/
def muxSigA : SignalDefinition :=
  ⟨"SignalA", 8, 16, ByteOrder.LittleEndian, ValueType.Unsigned, 1, 0, 0,
    65535, none, none, some ⟨"Mode", [0]⟩⟩

/-- Gated signal `SignalB m1`. -/
def muxSigB : SignalDefinition :=
  ⟨"SignalB", 8, 16, ByteOrder.LittleEndian, ValueType.Unsigned, 1, 0, 0,
    65535, none, none, some ⟨"Mode", [1]⟩⟩

/-- Multiplexed message of the witness. -/
def muxMd : MessageDefinition :=
  ⟨0x200, "MuxMsg", 3, none, [muxSigMode, muxSigA, muxSigB], true,
    some "Mode", "m.dbc"⟩

/-- Frame with selector 0 and 16-bit payload 0x1122. -/
def muxFrame : CanFrame := ⟨500, 0, 0x200, [0x00, 0x22, 0x11], false, false, false, false⟩

/-- Event decoded from `muxFrame`: Mode = 0 and SignalA = 0x1122; SignalB is
gated out. -/
def muxEvent : DecodedEvent :=
  DecodedEvent.Message 500 0 0x200 (some "MuxMsg") none
    [⟨"Mode", SignalValue.Integer 0, none, none, 0⟩,
     ⟨"SignalA", SignalValue.Integer 4386, none, none, 4386⟩] true (some 0)

/-- Witness for `multiplexer_gating` on the spec's seed case: with selector
0, SignalA is included and SignalA/SignalB (disjoint gates) never appear
together. -/
theorem multiplexer_gating_witness :
    decode_message muxFrame muxMd = some muxEvent ∧
    (∃ ds ∈ eventSignals muxEvent, ds.name = "SignalA") ∧
    ¬ ((∃ ds ∈ eventSignals muxEvent, ds.name = "SignalA") ∧
       (∃ ds ∈ eventSignals muxEvent, ds.name = "SignalB")) := by
  have h := multiplexer_gating muxFrame muxMd "Mode" muxSigMode 0 (by decide)
    (by decide) (by decide) (by decide) (by decide) muxEvent (by decide)
  refine ⟨by decide, ?_, ?_⟩
  · refine (h.1 muxSigA (by decide) (by decide)).mpr ?_
    intro g hg
    have hge : (⟨"Mode", [0]⟩ : MultiplexerInfo) = g := Option.some_inj.mp hg
    rw [← hge]
    decide
  · refine h.2 muxSigA (by decide) muxSigB (by decide) ⟨"Mode", [0]⟩
      ⟨"Mode", [1]⟩ (by decide) (by decide) ?_
    intro x hx
    obtain ⟨h1, h2⟩ := hx
    simp at h1 h2
    omega

/-! ### C9: cross-container splicing of the BLF record stream -/

/-- On-wire 16-byte preamble of a record (magic and header fields). -/
def recHeader (r : BlfRecord) : List Nat :=
  LOBJ ++ le16Bytes r.header_size ++ le16Bytes r.header_version ++
    le32Bytes (16 + r.payload.length) ++ le32Bytes r.object_type

theorem encodeRecord_eq (r : BlfRecord) :
    encodeRecord r = recHeader r ++ r.payload := by
  simp [encodeRecord, recHeader, List.append_assoc]

theorem readLe16_roundtrip (v : Nat) (h : v < 2 ^ 16) :
    readLe16 (v % 256) (v / 256 % 256) = v := by
  unfold readLe16
  omega

theorem readLe32_roundtrip (v : Nat) (h : v < 2 ^ 32) :
    readLe32 (v % 256) (v / 256 % 256) (v / 65536 % 256) (v / 16777216 % 256) = v := by
  unfold readLe32
  omega

theorem recHeader_cons (r : BlfRecord) :
    recHeader r =
      0x4C :: 0x4F :: 0x42 :: 0x4A ::
      (r.header_size % 256) :: (r.header_size / 256 % 256) ::
      (r.header_version % 256) :: (r.header_version / 256 % 256) ::
      ((16 + r.payload.length) % 256) :: ((16 + r.payload.length) / 256 % 256) ::
      ((16 + r.payload.length) / 65536 % 256) ::
      ((16 + r.payload.length) / 16777216 % 256) ::
      (r.object_type % 256) :: (r.object_type / 256 % 256) ::
      (r.object_type / 65536 % 256) :: (r.object_type / 16777216 % 256) :: [] := by
  simp [recHeader, LOBJ, le16Bytes, le32Bytes]

theorem readObject_header (r : BlfRecord) (hwf : r.WellFormed) (q : List Nat) :
    readObject (recHeader r ++ q) =
      (if q.length < r.payload.length then ReadResult.eof
       else ReadResult.ok
         ⟨r.header_size, r.header_version, r.object_type, q.take r.payload.length⟩
         (q.drop r.payload.length)) := by
  obtain ⟨h1, h2, h3, h4⟩ := hwf
  rw [recHeader_cons]
  show (if [0x4C, 0x4F, 0x42, 0x4A] ≠ LOBJ then ReadResult.badMagic
    else
      let object_size := readLe32 ((16 + r.payload.length) % 256)
        ((16 + r.payload.length) / 256 % 256) ((16 + r.payload.length) / 65536 % 256)
        ((16 + r.payload.length) / 16777216 % 256)
      let payload_len := object_size - 16
      if q.length < payload_len then ReadResult.eof
      else
        ReadResult.ok
          { header_size := readLe16 (r.header_size % 256) (r.header_size / 256 % 256),
            header_version :=
              readLe16 (r.header_version % 256) (r.header_version / 256 % 256),
            object_type := readLe32 (r.object_type % 256) (r.object_type / 256 % 256)
              (r.object_type / 65536 % 256) (r.object_type / 16777216 % 256),
            payload := q.take payload_len }
          (q.drop payload_len)) = _
  rw [if_neg (by decide)]
  simp only [readLe32_roundtrip _ h4, readLe32_roundtrip _ h3,
    readLe16_roundtrip _ h1, readLe16_roundtrip _ h2, Nat.add_sub_cancel_left]

theorem readObject_encode (r : BlfRecord) (hwf : r.WellFormed) (rest : List Nat) :
    readObject (encodeRecord r ++ rest) = ReadResult.ok r rest := by
  rw [encodeRecord_eq, List.append_assoc, readObject_header r hwf]
  rw [if_neg (by simp [List.length_append])]
  rw [List.take_left, List.drop_left]

theorem encodeRecord_length (r : BlfRecord) :
    (encodeRecord r).length = 16 + r.payload.length := by
  simp [encodeRecord, LOBJ, le16Bytes, le32Bytes]
  omega

theorem readObject_strict_prefix (r : BlfRecord) (hwf : r.WellFormed) (k : Nat)
    (hk : k < (encodeRecord r).length) :
    readObject ((encodeRecord r).take k) = ReadResult.eof := by
  rw [encodeRecord_length] at hk
  by_cases h16 : 16 ≤ k
  · rw [encodeRecord_eq, List.take_append_eq_append_take]
    have hrhlen : (recHeader r).length = 16 := by rw [recHeader_cons]; rfl
    rw [List.take_of_length_le (by omega), hrhlen, readObject_header r hwf]
    rw [if_pos (by simp [List.length_take]; omega)]
  · rw [encodeRecord_eq, recHeader_cons]
    interval_cases k <;> rfl

theorem collect_eof (data : List Nat) (n : Nat)
    (h : readObject data = ReadResult.eof) :
    logContainerCollect data n = ([], data) := by
  rw [logContainerCollect]
  split
  · rename_i obj rest heq
    rw [h] at heq
    simp at heq
  · rfl
  · rename_i heq
    rw [h] at heq
    simp at heq

theorem collect_encode (rs : List BlfRecord) (t : List Nat) :
    (∀ x ∈ rs, x.WellFormed) →
    logContainerCollect (encodeRecords rs ++ t) 0 =
      (rs ++ (logContainerCollect t 0).1, (logContainerCollect t 0).2) := by
  induction rs with
  | nil =>
    intro _
    simp [encodeRecords]
  | cons r rs ih =>
    intro hwf
    have hwfr : r.WellFormed := hwf r (by simp)
    have hwfs : ∀ x ∈ rs, x.WellFormed := fun x hx => hwf x (by simp [hx])
    have henc : encodeRecords (r :: rs) ++ t =
        encodeRecord r ++ (encodeRecords rs ++ t) := by
      simp [encodeRecords, List.append_assoc]
    rw [henc, logContainerCollect]
    split
    · rename_i obj rest heq
      rw [readObject_encode r hwfr] at heq
      cases heq
      rw [ih hwfs]
      simp
    · rename_i heq
      rw [readObject_encode r hwfr] at heq
      simp at heq
    · rename_i heq
      rw [readObject_encode r hwfr] at heq
      simp at heq

/-- C9: when the first log-container's payload ends mid-record (the tail
`p` after its complete records is a nonempty strict prefix of a record
encoding), the container iterator stops with exactly `p` as its
`remaining_data`, the outer iterator prepends `p` to the next container's
payload, and the straddling record `r` is yielded exactly once and intact,
between the first container's records and the second's. -/
theorem cross_container_splicing (rs1 rs2 : List BlfRecord) (r : BlfRecord)
    (p s : List Nat)
    (hwf1 : ∀ x ∈ rs1, x.WellFormed) (hwfr : r.WellFormed)
    (hwf2 : ∀ x ∈ rs2, x.WellFormed)
    (hsplit : p ++ s = encodeRecord r) (hp : p ≠ []) (hs : s ≠ []) :
    (containerObjects [] (encodeRecords rs1 ++ p)).2 = p ∧
    spliceTwoContainers (encodeRecords rs1 ++ p) (s ++ encodeRecords rs2) =
      rs1 ++ [r] ++ rs2 := by
  have hp_take : (encodeRecord r).take p.length = p := by
    rw [← hsplit]
    exact List.take_left p s
  have hlen : p.length < (encodeRecord r).length := by
    rw [← hsplit, List.length_append]
    have : 0 < s.length := List.length_pos.mpr hs
    omega
  have hpe : readObject p = ReadResult.eof := by
    rw [← hp_take]
    exact readObject_strict_prefix r hwfr p.length hlen
  have hcp : logContainerCollect p 0 = ([], p) := collect_eof p 0 hpe
  have h1 : logContainerCollect (encodeRecords rs1 ++ p) 0 = (rs1, p) := by
    rw [collect_encode rs1 p hwf1, hcp]
    simp
  constructor
  · unfold containerObjects
    rw [List.nil_append, h1]
  · unfold spliceTwoContainers containerObjects
    rw [List.nil_append, h1]
    simp only
    have hconcat : p ++ (s ++ encodeRecords rs2) =
        encodeRecords (r :: rs2) ++ [] := by
      rw [← List.append_assoc, hsplit]
      simp [encodeRecords]
    rw [hconcat]
    rw [collect_encode (r :: rs2) []
      (by
        intro x hx
        rcases List.mem_cons.mp hx with hx | hx
        · rw [hx]; exact hwfr
        · exact hwf2 x hx)]
    have hnil : logContainerCollect [] 0 = ([], []) :=
      collect_eof [] 0 (by rfl)
    rw [hnil]
    simp

/-- First record of the C9 witness (fits in container 1). -/
def c9r1 : BlfRecord := ⟨16, 1, 86, [0xAA]⟩

/-- The straddling record of the C9 witness (18 bytes on the wire, split 5 + 13). -/
def c9r : BlfRecord := ⟨16, 1, 86, [0xBB, 0xCC]⟩

/-- Last record of the C9 witness (fits in container 2). -/
def c9r2 : BlfRecord := ⟨16, 1, 86, [0xDD]⟩

/-- Witness for `cross_container_splicing`: record `c9r` split after 5 of
its 18 bytes across the two containers is yielded once and intact. -/
theorem cross_container_splicing_witness :
    ((encodeRecord c9r).take 5 ++ (encodeRecord c9r).drop 5 = encodeRecord c9r ∧
     (encodeRecord c9r).take 5 ≠ [] ∧ (encodeRecord c9r).drop 5 ≠ []) ∧
    (containerObjects [] (encodeRecords [c9r1] ++ (encodeRecord c9r).take 5)).2 =
      (encodeRecord c9r).take 5 ∧
    spliceTwoContainers (encodeRecords [c9r1] ++ (encodeRecord c9r).take 5)
        ((encodeRecord c9r).drop 5 ++ encodeRecords [c9r2]) =
      [c9r1] ++ [c9r] ++ [c9r2] := by
  have h := cross_container_splicing [c9r1] [c9r2] c9r
    ((encodeRecord c9r).take 5) ((encodeRecord c9r).drop 5)
    (by decide) (by decide) (by decide) (by decide) (by decide) (by decide)
  exact ⟨⟨by decide, by decide, by decide⟩, h.1, h.2⟩

end CanLog
